import Mathlib

/-!
Verification of the autenix-frontend document-notarization pipeline.

The TypeScript sources are shallowly embedded: JS strings become `List Char`,
byte arrays become `List Nat` (each element < 256), JS numbers become either
`Int`/`Nat` (where only integral values occur) or the `JSNum` model (rationals
plus NaN and the infinities) where fractional or non-finite inputs matter.
Fallible functions return `Except` or `Option`.
-/

namespace Autenix

/-! ### JS character and string primitives

These model the JavaScript string operations used by the sources:
`trim`, `toLowerCase`/`toUpperCase` (ASCII range, which covers every input
domain the claims quantify over), `Number.parseInt`, `String.prototype.split`
with a single-character separator, and case-insensitive regex tests.
The whitespace class models the ASCII whitespace characters plus NBSP and
the BOM, which is the portion of the JS `\s` class reachable here. -/

def jsIsWhitespace (c : Char) : Bool :=
  c = ' ' || c = '\t' || c = '\n' || c = '\r' ||
    c.toNat = 11 || c.toNat = 12 || c.toNat = 160 || c.toNat = 65279

def isAsciiDigit (c : Char) : Bool :=
  '0' ≤ c && c ≤ '9'

def digitVal (c : Char) : Nat :=
  c.toNat - '0'.toNat

def isHexDigitChar (c : Char) : Bool :=
  isAsciiDigit c || ('a' ≤ c && c ≤ 'f') || ('A' ≤ c && c ≤ 'F')

def isLowerHexDigit (c : Char) : Bool :=
  isAsciiDigit c || ('a' ≤ c && c ≤ 'f')

def hexVal (c : Char) : Nat :=
  if isAsciiDigit c then digitVal c
  else if 'a' ≤ c && c ≤ 'f' then c.toNat - 'a'.toNat + 10
  else c.toNat - 'A'.toNat + 10

def jsToLowerChar (c : Char) : Char :=
  if 'A' ≤ c && c ≤ 'Z' then Char.ofNat (c.toNat + 32) else c

def jsToUpperChar (c : Char) : Char :=
  if 'a' ≤ c && c ≤ 'z' then Char.ofNat (c.toNat - 32) else c

def jsToLower (s : List Char) : List Char :=
  s.map jsToLowerChar

def jsToUpper (s : List Char) : List Char :=
  s.map jsToUpperChar

def jsTrim (s : List Char) : List Char :=
  ((s.dropWhile jsIsWhitespace).reverse.dropWhile jsIsWhitespace).reverse

/-- The decimal digits, used to render a JS number with `toString`. -/
def hexDigitChar (d : Nat) : Char :=
  if d < 10 then Char.ofNat ('0'.toNat + d) else Char.ofNat ('a'.toNat + (d - 10))

/-- Fuel-based digit rendering (the fuel `n + 1` always suffices), kept
structural so that the kernel can evaluate it inside `decide`. -/
def natToCharsAux : Nat → Nat → List Char → List Char
  | 0, _, acc => acc
  | fuel + 1, n, acc =>
    let acc2 := hexDigitChar (n % 10) :: acc
    if n < 10 then acc2 else natToCharsAux fuel (n / 10) acc2

/-- Decimal rendering of a natural number, as JS `String(n)` produces. -/
def natToChars (n : Nat) : List Char :=
  natToCharsAux (n + 1) n []

/-- Rendering of an integral JS number via a template literal. -/
def intToChars (v : Int) : List Char :=
  if v < 0 then '-' :: natToChars v.natAbs else natToChars v.toNat

def digitsToNat (ds : List Char) : Nat :=
  ds.foldl (fun a c => a * 10 + digitVal c) 0

def hexDigitsToNat (ds : List Char) : Nat :=
  ds.foldl (fun a c => a * 16 + hexVal c) 0

/-- `Number.parseInt(s, 10)`: skip leading whitespace, optional sign, then the
maximal run of decimal digits; no digits means NaN, modelled as `none`.
Trailing characters are ignored, as in JS. -/
def jsParseIntDec (s : List Char) : Option Int :=
  let t := s.dropWhile jsIsWhitespace
  let signAndRest : Int × List Char :=
    match t with
    | '-' :: r => (-1, r)
    | '+' :: r => (1, r)
    | _ => (1, t)
  let ds := signAndRest.2.takeWhile isAsciiDigit
  if ds.isEmpty then none else some (signAndRest.1 * (digitsToNat ds : Int))

/-- JS `String.prototype.split` with a one-character separator. -/
def splitSep (sep : Char) : List Char → List (List Char)
  | [] => [[]]
  | c :: rest =>
    let r := splitSep sep rest
    if c = sep then [] :: r
    else
      match r with
      | [] => [[c]]
      | g :: gs => (c :: g) :: gs

def ciCharEq (a b : Char) : Bool :=
  jsToLowerChar a = jsToLowerChar b

/-- Case-insensitive literal match at the head; `some rest` is the remainder. -/
def matchLiteralCI : List Char → List Char → Option (List Char)
  | [], s => some s
  | _ :: _, [] => none
  | a :: as, b :: bs => if ciCharEq a b then matchLiteralCI as bs else none

def ciStartsWith : List Char → List Char → Bool
  | [], _ => true
  | _ :: _, [] => false
  | a :: as, b :: bs => ciCharEq a b && ciStartsWith as bs

/-- `new RegExp(needle, "i").test(hay)` for a plain-literal needle. -/
def ciHasSubstr (needle : List Char) : List Char → Bool
  | [] => ciStartsWith needle []
  | c :: rest => ciStartsWith needle (c :: rest) || ciHasSubstr needle rest

/-! ### src/lib/upload-types.ts -/

structure DocumentIdentifierParts where
  notary : List Char
  hash : List Char
  version : Int
deriving DecidableEq, Repr

/-- `composeDocumentIdentifier` renders `notary_hash_version` with the
separator `_`; the version is rendered by the template literal. -/
def composeDocumentIdentifier (p : DocumentIdentifierParts) : List Char :=
  p.notary ++ '_' :: (p.hash ++ '_' :: intToChars p.version)

/-- The test of the regex /^[0-9a-fA-F]{64}$/ used by the parser. -/
def hexHash64Test (h : List Char) : Bool :=
  h.length = 64 && h.all isHexDigitChar

/-- `parseDocumentIdentifier`: split on `_`, require exactly three parts,
non-empty notary and hash, a 64-hex-char hash (either case), and a version
parsed by `Number.parseInt(·, 10)` lying in [0, 255]. -/
def parseDocumentIdentifier (s : List Char) : Option DocumentIdentifierParts :=
  match splitSep '_' s with
  | [notary, hash, rawVersion] =>
    if notary.isEmpty || hash.isEmpty then none
    else if !hexHash64Test hash then none
    else
      match jsParseIntDec rawVersion with
      | none => none
      | some v => if v < 0 || v > 255 then none else some ⟨notary, hash, v⟩
  | _ => none

/-- The base58 alphabet of Solana wallet addresses (the notary strings the
round-trip claim quantifies over). -/
def base58Alphabet : List Char :=
  "123456789ABCDEFGHJKLMNPQRSTUVWXYZabcdefghijkmnopqrstuvwxyz".data

def isBase58Char (c : Char) : Bool :=
  base58Alphabet.contains c

/-! ### Lemmas about the string primitives -/

lemma splitSep_no_sep (sep : Char) (a : List Char) (ha : ∀ c ∈ a, c ≠ sep) :
    splitSep sep a = [a] := by
  induction a with
  | nil => rfl
  | cons c rest ih =>
    have hc : c ≠ sep := ha c (List.mem_cons_self _ _)
    have hrest : splitSep sep rest = [rest] := ih fun d hd => ha d (List.mem_cons_of_mem _ hd)
    simp [splitSep, hrest, hc]

lemma splitSep_append (sep : Char) (a r : List Char) (ha : ∀ c ∈ a, c ≠ sep) :
    splitSep sep (a ++ sep :: r) = a :: splitSep sep r := by
  induction a with
  | nil => simp [splitSep]
  | cons c rest ih =>
    have hc : c ≠ sep := ha c (List.mem_cons_self _ _)
    have hrest := ih fun d hd => ha d (List.mem_cons_of_mem _ hd)
    simp only [List.cons_append, splitSep, if_neg hc, List.append_eq, hrest]

set_option maxRecDepth 100000 in
lemma jsParseIntDec_natToChars (m : Nat) (hm : m < 256) :
    jsParseIntDec (natToChars m) = some (m : Int) := by
  have h : ((List.range 256).all fun k => jsParseIntDec (natToChars k) == some (k : Int)) = true := by
    decide
  exact eq_of_beq (List.all_eq_true.mp h m (List.mem_range.mpr hm))

set_option maxRecDepth 100000 in
lemma natToChars_no_sep (m : Nat) (hm : m < 256) :
    ∀ c ∈ natToChars m, c ≠ '_' := by
  have h : ((List.range 256).all fun k => (natToChars k).all fun c => !(c == '_')) = true := by
    decide
  intro c hc
  have h2 := List.all_eq_true.mp (List.all_eq_true.mp h m (List.mem_range.mpr hm)) c hc
  simpa using h2

lemma hex_ne_sep (c : Char) (h : isHexDigitChar c = true) : c ≠ '_' := by
  rintro rfl
  exact absurd h (by decide)

lemma base58_ne_sep (c : Char) (h : isBase58Char c = true) : c ≠ '_' := by
  rintro rfl
  exact absurd h (by decide)

lemma intToChars_nonneg (v : Int) (h0 : 0 ≤ v) : intToChars v = natToChars v.toNat := by
  unfold intToChars
  rw [if_neg (by omega)]

/-! ### Claims C1 and C5: identifier round-trip and parse strictness -/

/-- C1: for every valid triple — a non-empty base58 wallet-address notary,
a 64-hex-character hash (either case), and an integer version in [0, 255] —
`parseDocumentIdentifier` applied to `composeDocumentIdentifier` of the
triple returns exactly that triple. -/
theorem compose_parse_roundtrip
    (n h : List Char) (v : Int)
    (hne : n ≠ [])
    (hb58 : ∀ c ∈ n, isBase58Char c = true)
    (hlen : h.length = 64)
    (hhex : ∀ c ∈ h, isHexDigitChar c = true)
    (h0 : 0 ≤ v) (h255 : v ≤ 255) :
    parseDocumentIdentifier (composeDocumentIdentifier ⟨n, h, v⟩) = some ⟨n, h, v⟩ := by
  have hvn : v.toNat < 256 := by omega
  have hcompose : composeDocumentIdentifier ⟨n, h, v⟩ =
      n ++ '_' :: (h ++ '_' :: natToChars v.toNat) := by
    simp [composeDocumentIdentifier, intToChars_nonneg v h0]
  have hsplit : splitSep '_' (composeDocumentIdentifier ⟨n, h, v⟩) =
      [n, h, natToChars v.toNat] := by
    rw [hcompose, splitSep_append _ _ _ (fun c hc => base58_ne_sep c (hb58 c hc)),
        splitSep_append _ _ _ (fun c hc => hex_ne_sep c (hhex c hc)),
        splitSep_no_sep _ _ (natToChars_no_sep v.toNat hvn)]
  have hparse := jsParseIntDec_natToChars v.toNat hvn
  rw [Int.toNat_of_nonneg h0] at hparse
  have h1 : n.isEmpty = false := by
    cases n with
    | nil => exact absurd rfl hne
    | cons a b => rfl
  have h2 : h.isEmpty = false := by
    cases h with
    | nil => simp at hlen
    | cons a b => rfl
  have hhexTest : hexHash64Test h = true := by
    simp [hexHash64Test, hlen, List.all_eq_true.mpr hhex]
  have hc3 : (decide (v < 0) || decide (v > 255)) = false := by
    have hv1 : ¬(v < 0) := by omega
    have hv2 : ¬(v > 255) := by omega
    simp [hv1, hv2]
  rw [parseDocumentIdentifier, hsplit]
  simp [h1, h2, hhexTest, hparse, hc3]

/-- Witness for C1 at a concrete valid triple. -/
theorem compose_parse_roundtrip_witness :
    parseDocumentIdentifier
        (composeDocumentIdentifier ⟨['A'], List.replicate 64 'a', 7⟩) =
      some ⟨['A'], List.replicate 64 'a', 7⟩ :=
  compose_parse_roundtrip ['A'] (List.replicate 64 'a') 7 (by decide) (by decide)
    (by decide) (by decide) (by decide) (by decide)

set_option maxRecDepth 100000 in
/-- C5 counterexample: an identifier whose hash part is 64 UPPERCASE hex
characters and whose version part `12abc` is not (the rendering of) an
integer still parses to a non-null result, against the claim's strict
lowercase-hash / integer-version conditions. -/
theorem parse_strictness_counterexample :
    parseDocumentIdentifier ("A_".data ++ List.replicate 64 'A' ++ "_12abc".data) =
        some ⟨['A'], List.replicate 64 'A', 12⟩ ∧
      (List.replicate 64 'A').all isLowerHexDigit = false ∧
      "12abc".data.all isAsciiDigit = false := by
  decide

/-- C5 amended: `parseDocumentIdentifier` returns a non-null result exactly
when the identifier splits on `_` into exactly three parts, the notary part
is non-empty, the hash part is 64 hex characters of either case, and the
version part parses under JS `parseInt` decimal semantics (leading
whitespace, optional sign, maximal digit run, trailing characters ignored)
to an integer in [0, 255]. -/
theorem parse_some_iff (s : List Char) :
    (∃ p, parseDocumentIdentifier s = some p) ↔
      ∃ n h vs v, splitSep '_' s = [n, h, vs] ∧ n ≠ [] ∧ h.length = 64 ∧
        (∀ c ∈ h, isHexDigitChar c = true) ∧
        jsParseIntDec vs = some v ∧ 0 ≤ v ∧ v ≤ 255 := by
  rw [parseDocumentIdentifier]
  rcases hsp : splitSep '_' s with _ | ⟨n, _ | ⟨h, _ | ⟨vs, _ | ⟨d, t⟩⟩⟩⟩ <;>
    simp only [hsp]
  · simp
  · simp
  · simp
  · constructor
    · rintro ⟨p, hp⟩
      cases hpi : jsParseIntDec vs with
      | none =>
        rw [hpi] at hp
        dsimp only at hp
        split_ifs at hp
      | some v =>
        rw [hpi] at hp
        dsimp only at hp
        split_ifs at hp with hempty hhexf hrange
        have hhext : hexHash64Test h = true := by simpa using hhexf
        have hlens : h.length = 64 ∧ ∀ c ∈ h, isHexDigitChar c = true := by
          simpa [hexHash64Test] using hhext
        have hrng : ¬(v < 0) ∧ ¬(v > 255) := by simpa using hrange
        have hemp2 : ¬n = [] ∧ ¬h = [] := by simpa [not_or] using hempty
        exact ⟨n, h, vs, v, rfl, hemp2.1, hlens.1, hlens.2, hpi, by omega, by omega⟩
    · rintro ⟨n2, h2, vs2, v, heq, hne2, hlen, hhex, hpi, h0, h255⟩
      simp only [List.cons.injEq, and_true] at heq
      obtain ⟨rfl, rfl, rfl⟩ := heq
      have hb1 : n.isEmpty = false := by
        cases n with
        | nil => exact absurd rfl hne2
        | cons a b => rfl
      have hb2 : h.isEmpty = false := by
        cases h with
        | nil => simp at hlen
        | cons a b => rfl
      have hhexTest : hexHash64Test h = true := by
        simp [hexHash64Test, hlen, List.all_eq_true.mpr hhex]
      have hc3 : (decide (v < 0) || decide (v > 255)) = false := by
        have hv1 : ¬(v < 0) := by omega
        have hv2 : ¬(v > 255) := by omega
        simp [hv1, hv2]
      exact ⟨⟨n, h, v⟩, by simp [hb1, hb2, hhexTest, hpi, hc3]⟩
  · simp

/-! ### src/lib/use-document-uploader.ts: clampVersion (claim C6)

JS numbers are modelled as rationals extended with NaN and the two
infinities; `Math.trunc` on a finite value is truncation toward zero.
No rounding arithmetic occurs in `clampVersion`, so the rational model is
exact for it. -/

inductive JSNum where
  | nan
  | posInf
  | negInf
  | finite (q : ℚ)
deriving DecidableEq

def jsIsFinite : JSNum → Bool
  | .finite _ => true
  | _ => false

def jsTruncQ (q : ℚ) : Int :=
  if 0 ≤ q then ⌊q⌋ else ⌈q⌉

def MIN_VERSION : Int := 0

def MAX_VERSION : Int := 255

/-- `clampVersion`: `Number.isFinite(value) ? Math.trunc(value) : MIN_VERSION`,
then clamped into [MIN_VERSION, MAX_VERSION]. -/
def clampVersion (value : JSNum) : Int :=
  let normalized : Int :=
    match value with
    | .finite q => jsTruncQ q
    | _ => MIN_VERSION
  min (max normalized MIN_VERSION) MAX_VERSION

/-- C6: `clampVersion` always yields an integer in [0, 255]; negative values
map to 0, values above 255 map to 255, finite values in range are truncated
toward zero, non-finite values map to 0, and integers already in range are
returned unchanged. -/
theorem clampVersion_spec :
    (∀ x : JSNum, 0 ≤ clampVersion x ∧ clampVersion x ≤ 255) ∧
    (∀ q : ℚ, q < 0 → clampVersion (.finite q) = 0) ∧
    (∀ q : ℚ, 255 < q → clampVersion (.finite q) = 255) ∧
    (∀ q : ℚ, 0 ≤ q → q ≤ 255 → clampVersion (.finite q) = jsTruncQ q) ∧
    (clampVersion .nan = 0 ∧ clampVersion .posInf = 0 ∧ clampVersion .negInf = 0) ∧
    (∀ n : Int, 0 ≤ n → n ≤ 255 → clampVersion (.finite (n : ℚ)) = n) := by
  have htr : ∀ q : ℚ, 0 ≤ q → jsTruncQ q = ⌊q⌋ := fun q hq => if_pos hq
  refine ⟨?_, ?_, ?_, ?_, ⟨rfl, rfl, rfl⟩, ?_⟩
  · intro x
    cases x <;> simp [clampVersion, MIN_VERSION, MAX_VERSION]
  · intro q hq
    have h1 : jsTruncQ q = ⌈q⌉ := if_neg (by exact not_le.mpr hq)
    have h2 : ⌈q⌉ ≤ 0 := Int.ceil_le.mpr (by exact_mod_cast hq.le)
    simp only [clampVersion, MIN_VERSION, MAX_VERSION, h1]
    omega
  · intro q hq
    have h1 := htr q (by linarith)
    have h2 : (255 : Int) ≤ ⌊q⌋ := Int.le_floor.mpr (by exact_mod_cast hq.le)
    simp only [clampVersion, MIN_VERSION, MAX_VERSION, h1]
    omega
  · intro q h0 h255
    have h1 := htr q h0
    have h2 : (0 : Int) ≤ ⌊q⌋ := Int.le_floor.mpr (by exact_mod_cast h0)
    have h3 : (⌊q⌋ : ℚ) ≤ 255 := le_trans (Int.floor_le q) h255
    have h4 : ⌊q⌋ ≤ 255 := by exact_mod_cast h3
    simp only [clampVersion, MIN_VERSION, MAX_VERSION, h1]
    omega
  · intro n h0 h255
    have h1 : jsTruncQ (n : ℚ) = n := by
      rw [jsTruncQ, if_pos (by exact_mod_cast h0), Int.floor_intCast]
    simp only [clampVersion, MIN_VERSION, MAX_VERSION, h1]
    omega

/-- Witness for C6 at concrete inputs. -/
theorem clampVersion_spec_witness :
    clampVersion (.finite (-5 : ℚ)) = 0 ∧ clampVersion (.finite (300 : ℚ)) = 255 ∧
      clampVersion (.finite (7 / 2 : ℚ)) = jsTruncQ (7 / 2 : ℚ) ∧
      clampVersion (.finite (42 : ℚ)) = 42 ∧ 0 ≤ clampVersion .nan :=
  ⟨clampVersion_spec.2.1 (-5) (by norm_num),
   clampVersion_spec.2.2.1 300 (by norm_num),
   clampVersion_spec.2.2.2.1 (7 / 2) (by norm_num) (by norm_num),
   clampVersion_spec.2.2.2.2.2 42 (by norm_num) (by norm_num),
   (clampVersion_spec.1 .nan).1⟩


end Autenix

namespace Autenix

/-! ### notarization-account.ts `bytesToHex` and
notarization-program.ts `documentHashFromHex` (claim C10) -/

/-- Fuel-based hex rendering, `n.toString(16)`. -/
def natToHexCharsAux : Nat → Nat → List Char → List Char
  | 0, _, acc => acc
  | fuel + 1, n, acc =>
    let acc2 := hexDigitChar (n % 16) :: acc
    if n < 16 then acc2 else natToHexCharsAux fuel (n / 16) acc2

def natToHexChars (n : Nat) : List Char :=
  natToHexCharsAux (n + 1) n []

/-- `byte.toString(16).padStart(2, "0")`. -/
def byteToHexPadded (b : Nat) : List Char :=
  let s := natToHexChars b
  List.replicate (2 - s.length) '0' ++ s

/-- `bytesToHex` from notarization-account.ts. -/
def bytesToHex (bytes : List Nat) : List Char :=
  (bytes.map byteToHexPadded).flatten

/-- The byte-parsing loop of `documentHashFromHex`:
`Number.parseInt(normalized.slice(i, i + 2), 16)` for i = 0, 2, .., filling
one byte per pair. -/
def parseHexPairs : List Char → List Nat
  | a :: b :: rest => (hexVal a * 16 + hexVal b) :: parseHexPairs rest
  | _ => []

/-- `documentHashFromHex`: trim and lowercase, require exactly 64 characters,
require the regex /^[0-9a-f]+$/ (with 64 characters this is exactly
all-lowercase-hex), then parse byte pairs. -/
def documentHashFromHex (hex : List Char) : Except (List Char) (List Nat) :=
  let normalized := jsToLower (jsTrim hex)
  if normalized.length ≠ 64 then
    .error "Document hash must be 64 hex characters.".data
  else if !(normalized.all isLowerHexDigit) then
    .error "Document hash must be a valid hexadecimal string.".data
  else .ok (parseHexPairs normalized)

/-- Bundled per-byte facts about `byteToHexPadded`, established by
evaluation over all 256 bytes. -/
def byteHexOk (b : Nat) : Bool :=
  match byteToHexPadded b with
  | [c, d] =>
      isLowerHexDigit c && isLowerHexDigit d &&
      !jsIsWhitespace c && !jsIsWhitespace d &&
      (jsToLowerChar c == c) && (jsToLowerChar d == d) &&
      !jsIsWhitespace (jsToUpperChar c) && !jsIsWhitespace (jsToUpperChar d) &&
      (jsToLowerChar (jsToUpperChar c) == c) && (jsToLowerChar (jsToUpperChar d) == d) &&
      (hexVal c * 16 + hexVal d == b)
  | _ => false

set_option maxRecDepth 100000 in
lemma byteHexOk_all (b : Nat) (hb : b < 256) : byteHexOk b = true := by
  have h : ((List.range 256).all fun k => byteHexOk k) = true := by decide
  exact List.all_eq_true.mp h b (List.mem_range.mpr hb)

lemma byteToHexPadded_shape (b : Nat) (hb : b < 256) :
    ∃ c d, byteToHexPadded b = [c, d] ∧
      isLowerHexDigit c = true ∧ isLowerHexDigit d = true ∧
      jsIsWhitespace c = false ∧ jsIsWhitespace d = false ∧
      jsToLowerChar c = c ∧ jsToLowerChar d = d ∧
      jsIsWhitespace (jsToUpperChar c) = false ∧ jsIsWhitespace (jsToUpperChar d) = false ∧
      jsToLowerChar (jsToUpperChar c) = c ∧ jsToLowerChar (jsToUpperChar d) = d ∧
      hexVal c * 16 + hexVal d = b := by
  have h := byteHexOk_all b hb
  rw [byteHexOk] at h
  rcases hcd : byteToHexPadded b with _ | ⟨c, _ | ⟨d, _ | ⟨e, t⟩⟩⟩ <;> rw [hcd] at h
  · exact absurd h (by simp)
  · exact absurd h (by simp)
  · refine ⟨c, d, rfl, ?_⟩
    simp only [Bool.and_eq_true, Bool.not_eq_true', beq_iff_eq, Nat.beq_eq] at h
    tauto
  · exact absurd h (by simp)

end Autenix

namespace Autenix

lemma bytesToHex_cons (b : Nat) (rest : List Nat) :
    bytesToHex (b :: rest) = byteToHexPadded b ++ bytesToHex rest := by
  simp [bytesToHex]

lemma mem_bytesToHex (bs : List Nat) (c : Char) (hc : c ∈ bytesToHex bs) :
    ∃ b ∈ bs, c ∈ byteToHexPadded b := by
  simp only [bytesToHex, List.mem_flatten, List.mem_map] at hc
  obtain ⟨l, ⟨b, hb, rfl⟩, hcl⟩ := hc
  exact ⟨b, hb, hcl⟩

lemma parseHexPairs_bytesToHex (bs : List Nat) (h : ∀ b ∈ bs, b < 256) :
    parseHexPairs (bytesToHex bs) = bs := by
  induction bs with
  | nil => rfl
  | cons b rest ih =>
    obtain ⟨c, d, hcd, _, _, _, _, _, _, _, _, _, _, hval⟩ :=
      byteToHexPadded_shape b (h b (List.mem_cons_self _ _))
    rw [bytesToHex_cons, hcd]
    show parseHexPairs (c :: d :: bytesToHex rest) = b :: rest
    rw [parseHexPairs, hval, ih fun x hx => h x (List.mem_cons_of_mem _ hx)]

lemma bytesToHex_length (bs : List Nat) (h : ∀ b ∈ bs, b < 256) :
    (bytesToHex bs).length = 2 * bs.length := by
  induction bs with
  | nil => rfl
  | cons b rest ih =>
    obtain ⟨c, d, hcd, -⟩ := byteToHexPadded_shape b (h b (List.mem_cons_self _ _))
    rw [bytesToHex_cons, List.length_append, hcd,
      ih fun x hx => h x (List.mem_cons_of_mem _ hx)]
    simp [List.length_cons]
    ring

lemma dropWhile_id_of_head {p : Char → Bool} (l : List Char)
    (h : ∀ c ∈ l, p c = false) : l.dropWhile p = l := by
  cases l with
  | nil => rfl
  | cons c t => simp [List.dropWhile_cons, h c (List.mem_cons_self _ _)]

lemma jsTrim_id (s : List Char) (h : ∀ c ∈ s, jsIsWhitespace c = false) :
    jsTrim s = s := by
  rw [jsTrim, dropWhile_id_of_head s h, dropWhile_id_of_head _ (by
    intro c hc
    exact h c (List.mem_reverse.mp hc)), List.reverse_reverse]

lemma jsToLower_id (s : List Char) (h : ∀ c ∈ s, jsToLowerChar c = c) :
    jsToLower s = s := by
  rw [jsToLower]
  exact (List.map_congr_left h).trans (List.map_id s)

lemma bytesToHex_chars (bs : List Nat) (h : ∀ b ∈ bs, b < 256) :
    ∀ c ∈ bytesToHex bs,
      isLowerHexDigit c = true ∧ jsIsWhitespace c = false ∧ jsToLowerChar c = c ∧
        jsIsWhitespace (jsToUpperChar c) = false ∧ jsToLowerChar (jsToUpperChar c) = c := by
  intro c hc
  obtain ⟨b, hb, hcb⟩ := mem_bytesToHex bs c hc
  obtain ⟨x, y, hxy, q1, q2, q3, q4, q5, q6, q7, q8, q9, q10, -⟩ :=
    byteToHexPadded_shape b (h b hb)
  rw [hxy] at hcb
  simp only [List.mem_cons, List.not_mem_nil, or_false] at hcb
  rcases hcb with rfl | rfl
  · exact ⟨q1, q3, q5, q7, q9⟩
  · exact ⟨q2, q4, q6, q8, q10⟩

/-- C10: `documentHashFromHex` inverts `bytesToHex` on every 32-byte array;
it also accepts the uppercase spelling of the same bytes (the input is
trimmed and lowercased before validation), and it throws exactly when the
normalized input is not 64 lowercase hex characters. -/
theorem documentHashFromHex_roundtrip (bs : List Nat)
    (hlen : bs.length = 32) (hbytes : ∀ b ∈ bs, b < 256) :
    documentHashFromHex (bytesToHex bs) = .ok bs ∧
      documentHashFromHex (jsToUpper (bytesToHex bs)) = .ok bs ∧
      ∀ s : List Char,
        (∃ e, documentHashFromHex s = .error e) ↔
          ¬((jsToLower (jsTrim s)).length = 64 ∧
            (jsToLower (jsTrim s)).all isLowerHexDigit = true) := by
  have hchars := bytesToHex_chars bs hbytes
  have hL : (bytesToHex bs).length = 64 := by rw [bytesToHex_length bs hbytes, hlen]
  have htrim : jsTrim (bytesToHex bs) = bytesToHex bs :=
    jsTrim_id _ fun c hc => (hchars c hc).2.1
  have hlow : jsToLower (bytesToHex bs) = bytesToHex bs :=
    jsToLower_id _ fun c hc => (hchars c hc).2.2.1
  have hall : (bytesToHex bs).all isLowerHexDigit = true :=
    List.all_eq_true.mpr fun c hc => (hchars c hc).1
  refine ⟨?_, ?_, ?_⟩
  · rw [documentHashFromHex]
    simp only [htrim, hlow, hL, hall]
    simp [parseHexPairs_bytesToHex bs hbytes]
  · have hup_nows : ∀ c ∈ jsToUpper (bytesToHex bs), jsIsWhitespace c = false := by
      intro c hc
      simp only [jsToUpper, List.mem_map] at hc
      obtain ⟨a, ha, rfl⟩ := hc
      exact (hchars a ha).2.2.2.1
    have htrim2 : jsTrim (jsToUpper (bytesToHex bs)) = jsToUpper (bytesToHex bs) :=
      jsTrim_id _ hup_nows
    have hlow2 : jsToLower (jsToUpper (bytesToHex bs)) = bytesToHex bs := by
      rw [jsToLower, jsToUpper, List.map_map]
      exact (List.map_congr_left fun a ha => (hchars a ha).2.2.2.2).trans (List.map_id _)
    rw [documentHashFromHex]
    simp only [htrim2, hlow2, hL, hall]
    simp [parseHexPairs_bytesToHex bs hbytes]
  · intro s
    rw [documentHashFromHex]
    split_ifs with h1 h2
    · simp only [not_and]
      constructor
      · intro _ hc
        exact absurd hc h1
      · intro _
        exact ⟨_, rfl⟩
    · have h2f : (jsToLower (jsTrim s)).all isLowerHexDigit = false := by
        simpa using h2
      constructor
      · intro _
        intro hcon
        rw [hcon.2] at h2f
        cases h2f
      · intro _
        exact ⟨_, rfl⟩
    · have h2t : (jsToLower (jsTrim s)).all isLowerHexDigit = true := by
        simpa using h2
      push_neg at h1
      constructor
      · rintro ⟨e, he⟩
        exact absurd he (by simp)
      · intro hcon
        exact absurd ⟨h1, h2t⟩ hcon

/-- Witness for C10 at a concrete 32-byte array. -/
theorem documentHashFromHex_roundtrip_witness :
    documentHashFromHex (bytesToHex (List.replicate 32 171)) = .ok (List.replicate 32 171) :=
  (documentHashFromHex_roundtrip (List.replicate 32 171) (by decide)
    (by decide)).1

end Autenix

namespace Autenix

/-! ### transactions: `extractCustomProgramErrorCode` (claim C7)

The regex /custom program error:\s*(?:#([0-9]+)|0x([0-9a-f]+))/i is modelled
as a matcher at a fixed position (`customErrorMatchAt`) plus a left-to-right
scan over the positions of the message (`scanCustomError`), which is exactly
how `RegExp.prototype.exec` finds the leftmost match. -/

/-- Match the pattern at the head of `s`: the case-insensitive literal,
then whitespace, then either `#` with decimal digits or `0x`/`0X` with hex
digits (maximal runs), returning the parsed code. -/
def customErrorMatchAt (s : List Char) : Option Nat :=
  match matchLiteralCI "custom program error:".data s with
  | none => none
  | some rest =>
    match rest.dropWhile jsIsWhitespace with
    | '#' :: r =>
      let ds := r.takeWhile isAsciiDigit
      if ds.isEmpty then none else some (digitsToNat ds)
    | '0' :: c :: r =>
      if c = 'x' ∨ c = 'X' then
        let ds := r.takeWhile isHexDigitChar
        if ds.isEmpty then none else some (hexDigitsToNat ds)
      else none
    | _ => none

/-- Leftmost-match search over every start position. -/
def scanCustomError : List Char → Option Nat
  | [] => none
  | c :: rest =>
    match customErrorMatchAt (c :: rest) with
    | some n => some n
    | none => scanCustomError rest

/-- `extractCustomProgramErrorCode`: falsy (empty) messages yield null,
otherwise the leftmost regex match is parsed. -/
def extractCustomProgramErrorCode (message : List Char) : Option Nat :=
  if message.isEmpty then none else scanCustomError message

lemma customErrorMatchAt_nil : customErrorMatchAt [] = none := rfl

lemma scanCustomError_none_iff (s : List Char) :
    scanCustomError s = none ↔ ∀ i, customErrorMatchAt (s.drop i) = none := by
  induction s with
  | nil =>
    simp [scanCustomError, customErrorMatchAt_nil]
  | cons c rest ih =>
    constructor
    · intro h i
      rw [scanCustomError] at h
      cases hm : customErrorMatchAt (c :: rest) with
      | some n => rw [hm] at h; cases h
      | none =>
        rw [hm] at h
        cases i with
        | zero => exact hm
        | succ j => exact ih.mp h j
    · intro h
      rw [scanCustomError]
      have h0 := h 0
      rw [List.drop_zero] at h0
      rw [h0]
      exact ih.mpr fun j => h (j + 1)

lemma scanCustomError_some (s : List Char) (n : Nat) (h : scanCustomError s = some n) :
    ∃ i, customErrorMatchAt (s.drop i) = some n := by
  induction s with
  | nil => cases h
  | cons c rest ih =>
    rw [scanCustomError] at h
    cases hm : customErrorMatchAt (c :: rest) with
    | some m =>
      rw [hm] at h
      dsimp only at h
      exact ⟨0, by rw [List.drop_zero, hm, h]⟩
    | none =>
      rw [hm] at h
      obtain ⟨i, hi⟩ := ih h
      exact ⟨i + 1, hi⟩

set_option maxRecDepth 8000 in
/-- C7: the message `custom program error: 0x1` yields code 1; every
extracted code is the value of an actual occurrence of the pattern in the
message, and the result is null exactly when no position of the message
matches the pattern. -/
theorem extractCustomProgramErrorCode_spec :
    extractCustomProgramErrorCode "custom program error: 0x1".data = some 1 ∧
    (∀ msg n, extractCustomProgramErrorCode msg = some n →
      ∃ i, customErrorMatchAt (msg.drop i) = some n) ∧
    (∀ msg, extractCustomProgramErrorCode msg = none ↔
      ∀ i, customErrorMatchAt (msg.drop i) = none) := by
  refine ⟨by decide, ?_, ?_⟩
  · intro msg n h
    rw [extractCustomProgramErrorCode] at h
    split_ifs at h
    exact scanCustomError_some msg n h
  · intro msg
    rw [extractCustomProgramErrorCode]
    split_ifs with hemp
    · have : msg = [] := by simpa using hemp
      subst this
      simp [customErrorMatchAt_nil]
    · exact scanCustomError_none_iff msg

/-- Witness for C7 at concrete messages. -/
theorem extractCustomProgramErrorCode_spec_witness :
    (∃ i, customErrorMatchAt ("see custom program error: #47 in logs".data.drop i) = some 47) ∧
      customErrorMatchAt ("no such pattern here".data.drop 0) = none :=
  ⟨extractCustomProgramErrorCode_spec.2.1 "see custom program error: #47 in logs".data 47
    (by decide),
   (extractCustomProgramErrorCode_spec.2.2 "no such pattern here".data).mp (by decide) 0⟩

end Autenix

namespace Autenix

/-! ### transactions: `confirmTransactionAfterSendFailure` (claim C2)

The RPC is modelled as an oracle `Nat → RpcAttempt` giving, per attempt
index, either a thrown status query (`threw`, caught and ignored by the
loop) or the returned `value[0] ?? null`. The loop state
(remaining attempts, attempt index, current delay) is passed explicitly;
a run records the boolean outcome, the number of status queries made, and
the delays waited (the code waits after every non-returning attempt). -/

/-- The three confirmation levels; gill commitments take the same values. -/
inductive ConfLevel where
  | processed
  | confirmed
  | finalized
deriving DecidableEq, Repr

def confirmationLevelToPriority : ConfLevel → Nat
  | .processed => 0
  | .confirmed => 1
  | .finalized => 2

structure SignatureStatusModel where
  confirmations : Option Int
  confirmationStatus : Option ConfLevel
  err : Bool
deriving DecidableEq, Repr

/-- `deriveConfirmationLevel`: explicit status wins; a null confirmation
count means rooted/finalized; otherwise a positive count means confirmed. -/
def deriveConfirmationLevel (s : SignatureStatusModel) : ConfLevel :=
  match s.confirmationStatus with
  | some l => l
  | none =>
    match s.confirmations with
    | none => .finalized
    | some n => if n > 0 then .confirmed else .processed

/-- `normalizeCommitment` (the default branch of the switch maps to
confirmed). -/
def normalizeCommitment : ConfLevel → ConfLevel
  | .processed => .processed
  | .finalized => .finalized
  | .confirmed => .confirmed

/-- `hasSufficientConfirmation`: no status or an errored status is
insufficient; otherwise compare priorities. -/
def hasSufficientConfirmation (status : Option SignatureStatusModel) (commitment : ConfLevel) : Bool :=
  match status with
  | none => false
  | some s =>
    if s.err then false
    else
      decide (confirmationLevelToPriority (deriveConfirmationLevel s) ≥
        confirmationLevelToPriority (normalizeCommitment commitment))

inductive RpcAttempt where
  | threw
  | value (status : Option SignatureStatusModel)
deriving DecidableEq, Repr

/-- The decision one loop iteration takes from one RPC response:
`some true` = return success, `some false` = return failure (explicit
on-chain error), `none` = wait and retry (also for a thrown query). -/
def attemptDecision (commitment : ConfLevel) : RpcAttempt → Option Bool
  | .threw => none
  | .value st =>
    if hasSufficientConfirmation st commitment then some true
    else
      match st with
      | some s => if s.err then some false else none
      | none => none

structure ConfirmRun where
  result : Bool
  queries : Nat
  delays : List Nat
deriving DecidableEq, Repr

/-- The polling loop of `confirmTransactionAfterSendFailure`. -/
def confirmAux (rpc : Nat → RpcAttempt) (commitment : ConfLevel) :
    Nat → Nat → Nat → ConfirmRun
  | 0, _, _ => ⟨false, 0, []⟩
  | remaining + 1, attempt, delayMs =>
    match attemptDecision commitment (rpc attempt) with
    | some b => ⟨b, 1, []⟩
    | none =>
      let rest := confirmAux rpc commitment remaining (attempt + 1) (min (delayMs * 2) 4000)
      ⟨rest.result, rest.queries + 1, delayMs :: rest.delays⟩

/-- `confirmTransactionAfterSendFailure` with its default `maxAttempts = 5`
(the only way it is called) and initial 500ms delay. -/
def confirmTransactionAfterSendFailure (rpc : Nat → RpcAttempt) (commitment : ConfLevel) :
    ConfirmRun :=
  confirmAux rpc commitment 5 0 500

/-- The delay schedule: doubling, capped at 4000ms. -/
def delaySeq : Nat → Nat → List Nat
  | _, 0 => []
  | d, r + 1 => d :: delaySeq (min (d * 2) 4000) r

lemma confirmAux_queries_le (rpc : Nat → RpcAttempt) (c : ConfLevel) :
    ∀ r a d, (confirmAux rpc c r a d).queries ≤ r := by
  intro r
  induction r with
  | zero => intro a d; rfl
  | succ k ih =>
    intro a d
    rw [confirmAux]
    cases attemptDecision c (rpc a) with
    | some b => exact Nat.le_add_left 1 k
    | none =>
      dsimp only
      exact Nat.succ_le_succ (ih (a + 1) (min (d * 2) 4000))

lemma confirmAux_queries_pos (rpc : Nat → RpcAttempt) (c : ConfLevel) (r a d : Nat) :
    1 ≤ (confirmAux rpc c (r + 1) a d).queries := by
  rw [confirmAux]
  cases attemptDecision c (rpc a) with
  | some b => exact le_refl 1
  | none => dsimp only; omega

lemma confirmAux_delays_take (rpc : Nat → RpcAttempt) (c : ConfLevel) :
    ∀ r a d, ∃ k, (confirmAux rpc c r a d).delays = (delaySeq d r).take k := by
  intro r
  induction r with
  | zero => intro a d; exact ⟨0, rfl⟩
  | succ n ih =>
    intro a d
    rw [confirmAux]
    cases attemptDecision c (rpc a) with
    | some b => exact ⟨0, rfl⟩
    | none =>
      dsimp only
      obtain ⟨k, hk⟩ := ih (a + 1) (min (d * 2) 4000)
      exact ⟨k + 1, by rw [delaySeq, List.take_succ_cons, hk]⟩

lemma confirmAux_result_iff (rpc : Nat → RpcAttempt) (c : ConfLevel) :
    ∀ r a d, (confirmAux rpc c r a d).result = true ↔
      ∃ i, i < r ∧ attemptDecision c (rpc (a + i)) = some true ∧
        ∀ j, j < i → attemptDecision c (rpc (a + j)) = none := by
  intro r
  induction r with
  | zero =>
    intro a d
    constructor
    · intro h; cases h
    · rintro ⟨i, hi, -, -⟩; omega
  | succ n ih =>
    intro a d
    rw [confirmAux]
    cases hd : attemptDecision c (rpc a) with
    | some b =>
      dsimp only
      constructor
      · intro hb
        refine ⟨0, by omega, ?_, fun j hj => by omega⟩
        rw [Nat.add_zero, hd, hb]
      · rintro ⟨i, hi, hsome, hnone⟩
        cases i with
        | zero =>
          rw [Nat.add_zero] at hsome
          rw [hd] at hsome
          exact (Option.some.injEq _ _).mp hsome
        | succ m =>
          have := hnone 0 (by omega)
          rw [Nat.add_zero] at this
          rw [hd] at this
          cases this
    | none =>
      dsimp only
      rw [ih (a + 1) (min (d * 2) 4000)]
      constructor
      · rintro ⟨i, hi, hsome, hnone⟩
        refine ⟨i + 1, by omega, ?_, ?_⟩
        · rw [show a + (i + 1) = a + 1 + i by omega]
          exact hsome
        · intro j hj
          cases j with
          | zero => rw [Nat.add_zero]; exact hd
          | succ m =>
            rw [show a + (m + 1) = a + 1 + m by omega]
            exact hnone m (by omega)
      · rintro ⟨i, hi, hsome, hnone⟩
        cases i with
        | zero =>
          rw [Nat.add_zero] at hsome
          rw [hd] at hsome
          cases hsome
        | succ m =>
          refine ⟨m, by omega, ?_, ?_⟩
          · rw [show a + 1 + m = a + (m + 1) by omega]
            exact hsome
          · intro j hj
            rw [show a + 1 + j = a + (j + 1) by omega]
            exact hnone (j + 1) (by omega)

end Autenix

namespace Autenix

lemma confirmAux_found (rpc : Nat → RpcAttempt) (c : ConfLevel) :
    ∀ r a d i b, i < r →
      attemptDecision c (rpc (a + i)) = some b →
      (∀ j, j < i → attemptDecision c (rpc (a + j)) = none) →
      (confirmAux rpc c r a d).result = b ∧ (confirmAux rpc c r a d).queries = i + 1 := by
  intro r
  induction r with
  | zero => intro a d i b hi; omega
  | succ n ih =>
    intro a d i b hi hsome hnone
    cases i with
    | zero =>
      rw [Nat.add_zero] at hsome
      rw [confirmAux, hsome]
      exact ⟨rfl, rfl⟩
    | succ m =>
      have h0 := hnone 0 (by omega)
      rw [Nat.add_zero] at h0
      rw [confirmAux, h0]
      dsimp only
      have := ih (a + 1) (min (d * 2) 4000) m b (by omega)
        (by rw [show a + 1 + m = a + (m + 1) by omega]; exact hsome)
        (fun j hj => by
          rw [show a + 1 + j = a + (j + 1) by omega]
          exact hnone (j + 1) (by omega))
      exact ⟨this.1, by rw [this.2]⟩

lemma confirmAux_exhaust (rpc : Nat → RpcAttempt) (c : ConfLevel) :
    ∀ r a d, (∀ j, j < r → attemptDecision c (rpc (a + j)) = none) →
      (confirmAux rpc c r a d).result = false ∧ (confirmAux rpc c r a d).queries = r := by
  intro r
  induction r with
  | zero => intro a d _; exact ⟨rfl, rfl⟩
  | succ n ih =>
    intro a d hnone
    have h0 := hnone 0 (by omega)
    rw [Nat.add_zero] at h0
    rw [confirmAux, h0]
    dsimp only
    have := ih (a + 1) (min (d * 2) 4000) (fun j hj => by
      rw [show a + 1 + j = a + (j + 1) by omega]
      exact hnone (j + 1) (by omega))
    exact ⟨this.1, by rw [this.2]⟩

/-- A status sequence culminating in `finalized`. -/
def rpcFinalizedExample : Nat → RpcAttempt := fun n =>
  if n = 0 then .value none
  else if n = 1 then .value (some ⟨some 0, some .processed, false⟩)
  else .value (some ⟨none, some .finalized, false⟩)

/-- Only errored statuses. -/
def rpcErroredExample : Nat → RpcAttempt := fun _ =>
  .value (some ⟨some 0, none, true⟩)

/-- C2: the poll queries at most 5 times; the delays are an initial segment
of 500, 1000, 2000, 4000, 4000 (doubling, capped); it succeeds exactly when
some attempt sees a sufficient status with all earlier attempts undecided;
a first decisive errored status makes it return failure immediately;
exhausting all 5 undecided attempts returns failure; a sequence culminating
in `finalized` succeeds and an all-errored sequence fails at once. -/
theorem confirmTransactionAfterSendFailure_spec :
    (∀ rpc c, (confirmTransactionAfterSendFailure rpc c).queries ≤ 5) ∧
    (∀ rpc c, ∃ k, (confirmTransactionAfterSendFailure rpc c).delays =
      [500, 1000, 2000, 4000, 4000].take k) ∧
    (∀ rpc c, (confirmTransactionAfterSendFailure rpc c).result = true ↔
      ∃ i, i < 5 ∧ attemptDecision c (rpc i) = some true ∧
        ∀ j, j < i → attemptDecision c (rpc j) = none) ∧
    (∀ rpc c i, i < 5 →
      attemptDecision c (rpc i) = some false →
      (∀ j, j < i → attemptDecision c (rpc j) = none) →
      (confirmTransactionAfterSendFailure rpc c).result = false ∧
        (confirmTransactionAfterSendFailure rpc c).queries = i + 1) ∧
    (∀ rpc c, (∀ j, j < 5 → attemptDecision c (rpc j) = none) →
      (confirmTransactionAfterSendFailure rpc c).result = false ∧
        (confirmTransactionAfterSendFailure rpc c).queries = 5) ∧
    (confirmTransactionAfterSendFailure rpcFinalizedExample .confirmed).result = true ∧
    (confirmTransactionAfterSendFailure rpcErroredExample .confirmed).result = false ∧
    (confirmTransactionAfterSendFailure rpcErroredExample .confirmed).queries = 1 := by
  refine ⟨?_, ?_, ?_, ?_, ?_, by decide, by decide, by decide⟩
  · intro rpc c
    exact confirmAux_queries_le rpc c 5 0 500
  · intro rpc c
    have h := confirmAux_delays_take rpc c 5 0 500
    simpa [delaySeq] using h
  · intro rpc c
    have h := confirmAux_result_iff rpc c 5 0 500
    simpa using h
  · intro rpc c i hi hsome hnone
    have h := confirmAux_found rpc c 5 0 500 i false hi (by simpa using hsome)
      (fun j hj => by simpa using hnone j hj)
    exact h
  · intro rpc c hnone
    exact confirmAux_exhaust rpc c 5 0 500 (fun j hj => by simpa using hnone j hj)

/-- Every status query throws. -/
def rpcThrewExample : Nat → RpcAttempt := fun _ => .threw

/-- Witness for C2 at concrete RPC sequences. -/
theorem confirmTransactionAfterSendFailure_spec_witness :
    ((confirmTransactionAfterSendFailure rpcThrewExample .confirmed).result = false ∧
      (confirmTransactionAfterSendFailure rpcThrewExample .confirmed).queries = 5) ∧
    ((confirmTransactionAfterSendFailure rpcErroredExample .finalized).result = false ∧
      (confirmTransactionAfterSendFailure rpcErroredExample .finalized).queries = 1) ∧
    (confirmTransactionAfterSendFailure rpcFinalizedExample .confirmed).result = true :=
  ⟨confirmTransactionAfterSendFailure_spec.2.2.2.2.1 rpcThrewExample .confirmed
    (fun j hj => rfl),
   confirmTransactionAfterSendFailure_spec.2.2.2.1 rpcErroredExample .finalized 0
    (by decide) (by decide) (fun j hj => by omega),
   (confirmTransactionAfterSendFailure_spec.2.2.1 rpcFinalizedExample .confirmed).mpr
    ⟨2, by decide, by decide, by decide⟩⟩

end Autenix

namespace Autenix

/-! ### transactions: the catch block of `submitNotarizationTransaction`
(claim C4)

The catch block around `sendAndConfirmTransaction` calls
`confirmTransactionAfterSendFailure` unconditionally and surfaces
`enhanceSendError(error)` only when that polling fails; the
"transaction simulation failed" pattern appears only inside
`enhanceSendError`, where it selects the message enhancement. The model
observes the control flow: how many status queries the fallback made and
whether the call ends in success or a thrown error. -/

/-- The /transaction simulation failed/i test from `enhanceSendError`. -/
def isSimulationFailureMessage (message : List Char) : Bool :=
  ciHasSubstr "transaction simulation failed".data message

structure SubmitSendOutcome where
  pollQueries : Nat
  success : Bool
deriving DecidableEq, Repr

/-- The send-and-confirm phase of `submitNotarizationTransaction`:
`sendError` is the outcome of `sendAndConfirmTransaction` (`none` =
resolved, `some message` = rejected with that error message). -/
def submitSendPhase (sendError : Option (List Char)) (rpc : Nat → RpcAttempt)
    (commitment : ConfLevel) : SubmitSendOutcome :=
  match sendError with
  | none => ⟨0, true⟩
  | some _ =>
    let run := confirmTransactionAfterSendFailure rpc commitment
    ⟨run.queries, run.result⟩

/-- C4 counterexample: a send failure whose message does not match the
simulation-failed pattern still enters the polling loop (all 5 status
queries are made), against the claim's "if and only if" gating. -/
theorem submit_poll_gating_counterexample :
    isSimulationFailureMessage "Failed to fetch".data = false ∧
      (submitSendPhase (some "Failed to fetch".data) rpcThrewExample .confirmed).pollQueries = 5 ∧
      (submitSendPhase (some "Failed to fetch".data) rpcThrewExample .confirmed).success = false := by
  decide

/-- C4 amended: on send failure the fallback polling loop is entered
unconditionally — at least one status query is made regardless of the
error message — and the send failure is surfaced as an error exactly when
polling does not confirm the transaction. -/
theorem submitSendPhase_spec :
    (∀ rpc c, submitSendPhase none rpc c = ⟨0, true⟩) ∧
    (∀ e rpc c, 1 ≤ (submitSendPhase (some e) rpc c).pollQueries) ∧
    (∀ e rpc c, (submitSendPhase (some e) rpc c).pollQueries =
      (confirmTransactionAfterSendFailure rpc c).queries) ∧
    (∀ e rpc c, (submitSendPhase (some e) rpc c).success = true ↔
      (confirmTransactionAfterSendFailure rpc c).result = true) := by
  refine ⟨fun rpc c => rfl, ?_, fun e rpc c => rfl, fun e rpc c => Iff.rfl⟩
  intro e rpc c
  exact confirmAux_queries_pos rpc c 4 0 500

/-- Witness for the amended C4 at a concrete non-matching send error. -/
theorem submitSendPhase_spec_witness :
    1 ≤ (submitSendPhase (some "Failed to fetch".data) rpcErroredExample .confirmed).pollQueries ∧
      submitSendPhase none rpcErroredExample .confirmed = ⟨0, true⟩ :=
  ⟨submitSendPhase_spec.2.1 "Failed to fetch".data rpcErroredExample .confirmed,
   submitSendPhase_spec.1 rpcErroredExample .confirmed⟩

end Autenix

namespace Autenix

/-! ### notarization-program.ts instruction builders (claim C3)

`getUpdateNotarizationInstruction` funnels its three numeric fields through
`ensureU8`; `getCreateNotarizationInstruction` does not: its two version
bytes are written straight into the `Uint8Array`, which coerces with
ToUint8 (truncate toward zero, then modulo 256, non-finite to 0). -/

/-- The ToUint8 coercion a `Uint8Array` element assignment applies. -/
def jsToUint8 : JSNum → Nat
  | .finite q => (jsTruncQ q % 256).toNat
  | _ => 0

/-- `Number.isInteger(value) && 0 <= value && value <= 255`, the positive
form of the `ensureU8` guard. -/
def jsNumIsU8 : JSNum → Bool
  | .finite q => decide (q.den = 1 ∧ 0 ≤ q ∧ q ≤ 255)
  | _ => false

/-- `ensureU8` from notarization-program.ts. -/
def ensureU8 (value : JSNum) (label : List Char) : Except (List Char) JSNum :=
  match value with
  | .finite q =>
    if q.den = 1 ∧ 0 ≤ q ∧ q ≤ 255 then .ok value
    else .error (label ++ " must be an integer between 0 and 255.".data)
  | _ => .error (label ++ " must be an integer between 0 and 255.".data)

/-- `TextEncoder.encode` on one scalar value. -/
def utf8EncodeChar (c : Char) : List Nat :=
  let n := c.toNat
  if n < 128 then [n]
  else if n < 2048 then [192 + n / 64, 128 + n % 64]
  else if n < 65536 then [224 + n / 4096, 128 + n / 64 % 64, 128 + n % 64]
  else [240 + n / 262144, 128 + n / 4096 % 64, 128 + n / 64 % 64, 128 + n % 64]

def utf8Encode (s : List Char) : List Nat :=
  (s.map utf8EncodeChar).flatten

/-- `DataView.setUint32(0, n, true)`: little-endian u32. -/
def u32le (n : Nat) : List Nat :=
  [n % 256, n / 256 % 256, n / 65536 % 256, n / 16777216 % 256]

def CREATE_NOTARIZATION_DISCRIMINATOR : List Nat :=
  [71, 177, 199, 241, 100, 108, 216, 66]

def UPDATE_NOTARIZATION_DISCRIMINATOR : List Nat :=
  [97, 79, 153, 194, 63, 120, 17, 137]

/-- `encodeStringWithLength`: LE u32 length prefix plus UTF-8 bytes. -/
def encodeStringWithLength (value : List Char) : List Nat :=
  let utf8 := utf8Encode value
  u32le utf8.length ++ utf8

/-- `encodeCreateNotarizationData`: discriminator, hash, length-prefixed
name, then the hashVersion and version bytes (written with ToUint8). -/
def encodeCreateNotarizationData (documentHash : List Nat) (documentName : List Char)
    (hashVersion version : JSNum) : List Nat :=
  let nameBytes := encodeStringWithLength documentName
  CREATE_NOTARIZATION_DISCRIMINATOR ++ documentHash ++ nameBytes ++
    [jsToUint8 hashVersion, jsToUint8 version]

/-- `encodeUpdateNotarizationData`: discriminator, old hash, oldVersion
byte, new hash, newVersion byte, hashVersion byte. -/
def encodeUpdateNotarizationData (oldDocumentHash : List Nat) (oldVersion : JSNum)
    (newDocumentHash : List Nat) (newVersion hashVersion : JSNum) : List Nat :=
  UPDATE_NOTARIZATION_DISCRIMINATOR ++ oldDocumentHash ++ [jsToUint8 oldVersion] ++
    newDocumentHash ++ [jsToUint8 newVersion] ++ [jsToUint8 hashVersion]

/-- The `AccountRole` values used by the builders. -/
inductive JsAccountRole where
  | writableSigner
  | writable
  | readonly
deriving DecidableEq, Repr

structure InstructionModel where
  programAddress : List Char
  accounts : List (List Char × JsAccountRole)
  data : List Nat
deriving DecidableEq, Repr

def NOTARIZATION_PROGRAM_ID : List Char :=
  "2WDpVp8voZu2koiQ6guFZ9AQkxZcQ3jtr8bU494p2UAa".data

def SYSTEM_PROGRAM_ADDRESS : List Char :=
  "11111111111111111111111111111111".data

/-- `getCreateNotarizationInstruction`: checks only the hash length, then
sanitizes the name (`trim() || "Untitled Document"`) and encodes. -/
def getCreateNotarizationInstruction (documentHash : List Nat) (documentName : List Char)
    (hashVersion version : JSNum) (notarizationAccount notary : List Char) :
    Except (List Char) InstructionModel :=
  if documentHash.length ≠ 32 then
    .error "Document hash must be 32 bytes.".data
  else
    let trimmed := jsTrim documentName
    let sanitizedName := if trimmed.isEmpty then "Untitled Document".data else trimmed
    .ok ⟨NOTARIZATION_PROGRAM_ID,
      [(notary, .writableSigner), (notarizationAccount, .writable),
        (SYSTEM_PROGRAM_ADDRESS, .readonly)],
      encodeCreateNotarizationData documentHash sanitizedName hashVersion version⟩

/-- `getUpdateNotarizationInstruction`: checks both hash lengths, then
bounds-checks the three numeric fields via `ensureU8` before encoding. -/
def getUpdateNotarizationInstruction (notary oldNotarization newNotarization : List Char)
    (oldDocumentHash newDocumentHash : List Nat)
    (oldVersion newVersion hashVersion : JSNum) :
    Except (List Char) InstructionModel :=
  if oldDocumentHash.length ≠ 32 then
    .error "Old document hash must be 32 bytes.".data
  else if newDocumentHash.length ≠ 32 then
    .error "New document hash must be 32 bytes.".data
  else do
    let normalizedOldVersion ← ensureU8 oldVersion "oldVersion".data
    let normalizedNewVersion ← ensureU8 newVersion "newVersion".data
    let normalizedHashVersion ← ensureU8 hashVersion "hashVersion".data
    pure ⟨NOTARIZATION_PROGRAM_ID,
      [(notary, .writableSigner), (oldNotarization, .readonly),
        (newNotarization, .writable), (SYSTEM_PROGRAM_ADDRESS, .readonly)],
      encodeUpdateNotarizationData oldDocumentHash normalizedOldVersion
        newDocumentHash normalizedNewVersion normalizedHashVersion⟩

lemma ensureU8_eq (x : JSNum) (l : List Char) :
    ensureU8 x l = if jsNumIsU8 x then .ok x
      else .error (l ++ " must be an integer between 0 and 255.".data) := by
  cases x with
  | finite q =>
    by_cases h : q.den = 1 ∧ 0 ≤ q ∧ q ≤ 255
    · simp [ensureU8, jsNumIsU8, h]
    · simp [ensureU8, jsNumIsU8, h]
  | nan => rfl
  | posInf => rfl
  | negInf => rfl

lemma jsToUint8_lt (x : JSNum) : jsToUint8 x < 256 := by
  cases x with
  | finite q =>
    have h1 : 0 ≤ jsTruncQ q % 256 := Int.emod_nonneg _ (by norm_num)
    have h2 : jsTruncQ q % 256 < 256 := Int.emod_lt_of_pos _ (by norm_num)
    simp only [jsToUint8]
    omega
  | nan => decide
  | posInf => decide
  | negInf => decide

/-- C3 counterexample: `getCreateNotarizationInstruction` with version 256
(not an integer in [0, 255]) does not throw; it produces a payload whose
final (version) byte is the wrapped value 0. -/
theorem create_no_bounds_check_counterexample :
    (getCreateNotarizationInstruction (List.replicate 32 0) "doc".data
        (.finite 1) (.finite 256) "acct".data "notary".data).toOption.map
      (fun ins => (ins.data.getLast?, ins.data.length)) = some (some 0, 49) ∧
      jsNumIsU8 (.finite 256) = false := by
  decide

/-- C3 amended: only the update builder bounds-checks its numeric fields —
with 32-byte hashes it throws exactly when some of oldVersion, newVersion,
hashVersion is not an integer in [0, 255] — while the create builder never
throws on numeric fields and encodes hashVersion and version wrapped by
ToUint8 (always a byte below 256). -/
theorem instruction_bounds_check_spec :
    (∀ n o w oldH newH oldV newV hashV,
      oldH.length = 32 → newH.length = 32 →
      ((∃ e, getUpdateNotarizationInstruction n o w oldH newH oldV newV hashV = .error e) ↔
        ¬(jsNumIsU8 oldV = true ∧ jsNumIsU8 newV = true ∧ jsNumIsU8 hashV = true))) ∧
    (∀ dh dn hv v acct n, dh.length = 32 →
      ∃ ins, getCreateNotarizationInstruction dh dn hv v acct n = .ok ins ∧
        ∃ p, ins.data = p ++ [jsToUint8 hv, jsToUint8 v]) ∧
    (∀ x, jsToUint8 x < 256) := by
  refine ⟨?_, ?_, jsToUint8_lt⟩
  · intro n o w oldH newH oldV newV hashV hold hnew
    rw [getUpdateNotarizationInstruction, if_neg (by omega), if_neg (by omega)]
    by_cases h1 : jsNumIsU8 oldV = true <;>
      by_cases h2 : jsNumIsU8 newV = true <;>
        by_cases h3 : jsNumIsU8 hashV = true <;>
          simp [ensureU8_eq, h1, h2, h3, bind, Except.bind, pure, Except.pure]
  · intro dh dn hv v acct n hlen
    rw [getCreateNotarizationInstruction, if_neg (by omega)]
    refine ⟨_, rfl, CREATE_NOTARIZATION_DISCRIMINATOR ++ dh ++
      encodeStringWithLength (if (jsTrim dn).isEmpty then "Untitled Document".data
        else jsTrim dn), ?_⟩
    simp [encodeCreateNotarizationData, List.append_assoc]

/-- Witness for the amended C3 at concrete inputs. -/
theorem instruction_bounds_check_spec_witness :
    (∃ e, getUpdateNotarizationInstruction "n".data "o".data "w".data
        (List.replicate 32 0) (List.replicate 32 1)
        (.finite 300) (.finite 1) (.finite 1) = .error e) ∧
      (∃ ins, getCreateNotarizationInstruction (List.replicate 32 0) "doc".data
        (.finite 1) (.finite 2) "a".data "b".data = .ok ins ∧
        ∃ p, ins.data = p ++ [jsToUint8 (.finite 1), jsToUint8 (.finite 2)]) :=
  ⟨(instruction_bounds_check_spec.1 "n".data "o".data "w".data
      (List.replicate 32 0) (List.replicate 32 1) (.finite 300) (.finite 1) (.finite 1)
      (by decide) (by decide)).mpr (by decide),
   instruction_bounds_check_spec.2.1 (List.replicate 32 0) "doc".data
      (.finite 1) (.finite 2) "a".data "b".data (by decide)⟩

end Autenix

namespace Autenix

/-! ### use-document-uploader.ts: failure mapping in
`attemptTransactionSignature` (claim C8) and the `convertEntry` digest
failure flow (claim C9) -/

/-- The `UploadStatus` union type. -/
inductive UploadStatusModel where
  | idle
  | converting
  | success
  | error
deriving DecidableEq, Repr

/-- The `TransactionStatus` union type. -/
inductive TransactionStatusModel where
  | idle
  | pending
  | confirmed
  | cancelled
  | error
deriving DecidableEq, Repr

/-- A value thrown by `submitNotarizationTransaction`, as the catch block
observes it: whether it is an `Error` (and its message), and its optional
numeric `code`. -/
structure SubmissionFailure where
  isErrorInstance : Bool
  message : List Char
  code : Option Int
deriving DecidableEq, Repr

/-- `error instanceof Error ? error.message : "Failed to submit ..."`. -/
def submissionFailureMessage (f : SubmissionFailure) : List Char :=
  if f.isErrorInstance then f.message
  else "Failed to submit the notarization transaction.".data

/-- `rejectionCode === 4001 || /reject/i.test(message)`. -/
def isWalletRejection (f : SubmissionFailure) : Bool :=
  decide (f.code = some 4001) || ciHasSubstr "reject".data (submissionFailureMessage f)

structure EntryTxResolution where
  transactionStatus : TransactionStatusModel
  transactionError : Option (List Char)
deriving DecidableEq, Repr

/-- The catch block of `attemptTransactionSignature`: a wallet rejection
becomes `cancelled` with the error cleared; everything else becomes
`error` carrying the message. -/
def resolveSubmissionFailure (f : SubmissionFailure) : EntryTxResolution :=
  if isWalletRejection f then ⟨.cancelled, none⟩
  else ⟨.error, some (submissionFailureMessage f)⟩

/-- C8: the entry is marked `cancelled` (with no surfaced error message)
exactly when the failure has the wallet-rejection code 4001 or a message
matching /reject/i; every other failure is marked `error` with the message
surfaced; the outcome is always one of these two. -/
theorem submission_failure_mapping :
    (∀ f, (resolveSubmissionFailure f).transactionStatus = .cancelled ↔
      (f.code = some 4001 ∨
        ciHasSubstr "reject".data (submissionFailureMessage f) = true)) ∧
    (∀ f, (resolveSubmissionFailure f).transactionStatus = .cancelled ∨
      (resolveSubmissionFailure f).transactionStatus = .error) ∧
    (∀ f, isWalletRejection f = true →
      resolveSubmissionFailure f = ⟨.cancelled, none⟩) ∧
    (∀ f, isWalletRejection f = false →
      resolveSubmissionFailure f = ⟨.error, some (submissionFailureMessage f)⟩) := by
  refine ⟨?_, ?_, ?_, ?_⟩
  · intro f
    by_cases h : isWalletRejection f = true
    · simp only [resolveSubmissionFailure, if_pos h]
      simp only [isWalletRejection, Bool.or_eq_true, decide_eq_true_eq] at h
      simpa using h
    · simp only [resolveSubmissionFailure, if_neg h]
      simp only [isWalletRejection, Bool.or_eq_true, decide_eq_true_eq, not_or] at h
      push_neg at h
      constructor
      · intro hc
        cases hc
      · intro hc
        rcases hc with hc | hc
        · exact absurd hc h.1
        · exact absurd hc (by simpa using h.2)
  · intro f
    by_cases h : isWalletRejection f = true
    · left; simp [resolveSubmissionFailure, h]
    · right; simp [resolveSubmissionFailure, h]
  · intro f h
    simp [resolveSubmissionFailure, h]
  · intro f h
    simp [resolveSubmissionFailure, h]

/-- Witness for C8 at concrete failures. -/
theorem submission_failure_mapping_witness :
    resolveSubmissionFailure ⟨true, "User rejected the request.".data, none⟩ =
        ⟨.cancelled, none⟩ ∧
      resolveSubmissionFailure ⟨false, [], some 4001⟩ = ⟨.cancelled, none⟩ ∧
      resolveSubmissionFailure ⟨true, "Blockhash not found.".data, none⟩ =
        ⟨.error, some "Blockhash not found.".data⟩ :=
  ⟨submission_failure_mapping.2.2.1 ⟨true, "User rejected the request.".data, none⟩ (by decide),
   submission_failure_mapping.2.2.1 ⟨false, [], some 4001⟩ (by decide),
   submission_failure_mapping.2.2.2 ⟨true, "Blockhash not found.".data, none⟩ (by decide)⟩

/-- The effects `convertEntry` performs, as an oracle: wallet presence,
file presence/type, the outcome of `file.arrayBuffer()` and of the `File`
conversion (each `some message` when it threw), the digest outcome
(`none` when `computeDigestsFromBuffer` threw or rejected), any
pre-existing `entry.binHash`, and the submission outcome. -/
structure ConvertEnv where
  walletConnected : Bool
  filePresent : Bool
  fileIsPdf : Bool
  readError : Option (List Char)
  binFileCreationError : Option (List Char)
  digestResult : Option (List Char × List Char)
  initialBinHash : Option (List Char)
  submitResult : Except SubmissionFailure (List Char)
deriving Repr

/-- The observable final entry state after `convertEntry`, plus how many
times the digest and the submission were attempted. -/
structure ConvertOutcome where
  status : UploadStatusModel
  errorMsg : Option (List Char)
  transactionStatus : TransactionStatusModel
  transactionError : Option (List Char)
  digestCalls : Nat
  submitCalls : Nat
deriving DecidableEq, Repr

/-- `finalizeWithError` from `convertEntry`. -/
def finalizeWithError (m : List Char) (digestCalls submitCalls : Nat) : ConvertOutcome :=
  ⟨.error, some m, .error, some m, digestCalls, submitCalls⟩

/-- `convertEntry`: guard chain, binary conversion, one digest attempt
whose failure is only logged, then `attemptTransactionSignature`, which
errors out when no binary hash is available. -/
def convertEntry (env : ConvertEnv) : ConvertOutcome :=
  if !env.walletConnected then
    finalizeWithError "Please connect your wallet.".data 0 0
  else if !env.filePresent then
    finalizeWithError "Original PDF unavailable. Please upload the document again.".data 0 0
  else if !env.fileIsPdf then
    finalizeWithError "Unsupported file type. Only PDF documents are supported.".data 0 0
  else
    match env.readError with
    | some m => finalizeWithError m 0 0
    | none =>
      match env.binFileCreationError with
      | some m => finalizeWithError m 0 0
      | none =>
        let computedBinHash : Option (List Char) :=
          match env.digestResult with
          | some r => some r.2
          | none => env.initialBinHash
        match computedBinHash with
        | none =>
          ⟨.success, none, .error,
            some "Binary hash unavailable. Unable to submit notarization.".data, 1, 0⟩
        | some _ =>
          match env.submitResult with
          | .ok _ => ⟨.success, none, .confirmed, none, 1, 1⟩
          | .error f =>
            let r := resolveSubmissionFailure f
            ⟨.success, none, r.transactionStatus, r.transactionError, 1, 1⟩

/-- C9: when the digest computation fails (and the staged entry has no
pre-existing binary hash, as staged entries never do), `convertEntry`
leaves the entry in the terminal `error` transaction state with the
"Binary hash unavailable" message, attempts the digest exactly once
(no retry), and never attempts the submission. -/
theorem digest_failure_terminal (env : ConvertEnv)
    (hw : env.walletConnected = true) (hf : env.filePresent = true)
    (hp : env.fileIsPdf = true) (hr : env.readError = none)
    (hb : env.binFileCreationError = none)
    (hd : env.digestResult = none) (hih : env.initialBinHash = none) :
    (convertEntry env).transactionStatus = .error ∧
      (convertEntry env).transactionError =
        some "Binary hash unavailable. Unable to submit notarization.".data ∧
      (convertEntry env).digestCalls = 1 ∧
      (convertEntry env).submitCalls = 0 := by
  simp [convertEntry, hw, hf, hp, hr, hb, hd, hih]

/-- Witness for C9 at a concrete environment. -/
theorem digest_failure_terminal_witness :
    (convertEntry ⟨true, true, true, none, none, none, none,
        .ok "sig".data⟩).transactionStatus = .error ∧
      (convertEntry ⟨true, true, true, none, none, none, none,
        .ok "sig".data⟩).transactionError =
        some "Binary hash unavailable. Unable to submit notarization.".data ∧
      (convertEntry ⟨true, true, true, none, none, none, none,
        .ok "sig".data⟩).digestCalls = 1 ∧
      (convertEntry ⟨true, true, true, none, none, none, none,
        .ok "sig".data⟩).submitCalls = 0 :=
  digest_failure_terminal ⟨true, true, true, none, none, none, none, .ok "sig".data⟩
    rfl rfl rfl rfl rfl rfl rfl

end Autenix
